import Mathlib

/-!
Verification of the phase library (package phase, phase.go): a shallow
embedding of the context chain and of the phaseCtx lifecycle operations,
followed by theorems about the registration, cancellation, waiting and
closing behaviour.
-/

namespace Phase

/-- Go context values as built by this repository: Background, WithCancel,
WithDeadline (also covering WithTimeout), WithValue, and the phaseCtx of
phase.go.  A phaseCtx embeds the cancellable context derived from its parent
(phase.go line 79); the phase constructor folds that embedded WithCancel in,
reusing the node id as the cancel id of the embedded context. -/
inductive Ctx where
  | background : Ctx
  | withCancel (id : Nat) (parent : Ctx) : Ctx
  | withDeadline (id : Nat) (d : Nat) (parent : Ctx) : Ctx
  | withValue (key : Nat) (v : Nat) (parent : Ctx) : Ctx
  | phase (pid : Nat) (parent : Ctx) : Ctx
  deriving DecidableEq, Repr

/-- Keys passed to Value lookups.  The marker constructor stands for the
private address of ancestorCtxKey (phase.go line 190); user code cannot
forge that address, so every user supplied key is of the second form. -/
inductive Key where
  | marker : Key
  | user (k : Nat) : Key
  deriving DecidableEq, Repr

/-- Results of a Value lookup: nothing found, a user value, or the phaseCtx
returned for the marker key. -/
inductive Val where
  | missing : Val
  | str (v : Nat) : Val
  | phaseRef (c : Ctx) : Val
  deriving DecidableEq, Repr

/-- Value lookup along a context chain.  WithCancel and WithDeadline
delegate to their parent, WithValue answers for its own key, and a phaseCtx
intercepts the marker key to return itself and otherwise delegates through
its embedded context to the upstream parent (phase.go lines 229 to 235). -/
def ctxValue : Ctx → Key → Val
  | .background, _ => .missing
  | .withCancel _ p, k => ctxValue p k
  | .withDeadline _ _ p, k => ctxValue p k
  | .withValue key v p, k => if k = Key.user key then .str v else ctxValue p k
  | .phase pid p, k => if k = Key.marker then .phaseRef (.phase pid p) else ctxValue p k

/-- Transcribes ancestorPhaseCtx (phase.go lines 193 to 199): the type
assertion on ctx.Value succeeds exactly when the lookup produced a
phaseCtx. -/
def ancestorPhaseCtx (ctx : Ctx) : Option Ctx :=
  match ctxValue ctx Key.marker with
  | .phaseRef c => some c
  | _ => none

/-- Mutable fields of a phaseCtx guarded by its mutex: the parent field
(nearest ancestor phase node, recorded by id, phase.go line 147) and the
counter of the children WaitGroup (phase.go line 150).  The counter is an
integer because the Go WaitGroup counter can be driven below zero, which
makes the Go runtime panic. -/
structure NodeData where
  parent : Option Nat
  children : Int
  deriving DecidableEq, Repr

/-- Global mutable state: the data of every allocated phase node, the set of
cancel functions that have been invoked, and the next fresh node id. -/
structure PState where
  nodes : List (Nat × NodeData)
  cancelled : List Nat
  nextId : Nat
  deriving DecidableEq, Repr

/-- Association lookup over the node table. -/
def nlookup (q : Nat) : List (Nat × NodeData) → Option NodeData
  | [] => none
  | (k, v) :: tl => if q = k then some v else nlookup q tl

/-- Lookup of the mutable data of a node. -/
def PState.node (s : PState) (pid : Nat) : Option NodeData :=
  nlookup pid s.nodes

/-- Invocation of the cancel function with the given id.  Idempotent, as the
cancel function of a Go context is. -/
def PState.cancel (s : PState) (id : Nat) : PState :=
  if s.cancelled.contains id then s else { s with cancelled := id :: s.cancelled }

/-- Update of one association entry when its key matches. -/
def updEntry (pid : Nat) (f : NodeData → NodeData) (kv : Nat × NodeData) : Nat × NodeData :=
  if kv.1 = pid then (kv.1, f kv.2) else kv

/-- Pointwise update of the mutable data of one node. -/
def updNode (pid : Nat) (f : NodeData → NodeData) (s : PState) : PState :=
  { s with nodes := s.nodes.map (updEntry pid f) }

/-- Done and Err observation at time t: a context is done when a cancel
function on its chain has been invoked, a deadline on its chain has passed,
or its parent is done.  Err returns a non nil error exactly when the context
is done, so this boolean models both. -/
def ctxDone (s : PState) (t : Nat) : Ctx → Bool
  | .background => false
  | .withCancel id p => s.cancelled.contains id || ctxDone s t p
  | .withDeadline id d p => s.cancelled.contains id || decide (d ≤ t) || ctxDone s t p
  | .withValue _ _ p => ctxDone s t p
  | .phase pid p => s.cancelled.contains pid || ctxDone s t p

/-- Deadline reported by a context: WithDeadline caps the inherited
deadline, everything else passes the parent deadline through.  A phaseCtx
reports the deadline of its embedded cancellable context, which is the
deadline of the upstream parent (phase.go line 79 derives it with
WithCancel only). -/
def ctxDeadline : Ctx → Option Nat
  | .background => none
  | .withCancel _ p => ctxDeadline p
  | .withDeadline _ d p =>
      match ctxDeadline p with
      | none => some d
      | some e => some (min d e)
  | .withValue _ _ p => ctxDeadline p
  | .phase _ p => ctxDeadline p

/-- Identifier of a phase node value; used where the Go code follows the
pointer returned by ancestorPhaseCtx, which is always a phaseCtx. -/
def phasePid : Ctx → Nat
  | .phase pid _ => pid
  | _ => 0

/-- Transcribes registerChild (phase.go lines 176 to 185): return without
effect when the receiving node has a non nil Err, otherwise
children.Add(1). -/
def registerChild (s : PState) (t : Nat) (pc : Ctx) : PState :=
  if ctxDone s t pc then s
  else updNode (phasePid pc) (fun d => { d with children := d.children + 1 }) s

/-- Transcribes phaseCtx.init (phase.go lines 153 to 172).  The context
argument is the embedded cancellable context of the new node.  When an
ancestor phase node is found, the parent mutex is taken, registerChild runs
only if the parent Err is nil, and the parent field of the new node is then
set unconditionally. -/
def init (s : PState) (t : Nat) (pid : Nat) (embedded : Ctx) : PState :=
  match ancestorPhaseCtx embedded with
  | none => s
  | some parentNode =>
      let s1 := if ctxDone s t parentNode then s else registerChild s t parentNode
      updNode pid (fun d => { d with parent := some (phasePid parentNode) }) s1

/-- Allocation step of Next: the fresh phaseCtx record before init runs. -/
def allocNode (s : PState) : PState :=
  { s with nodes := (s.nextId, ⟨none, 0⟩) :: s.nodes, nextId := s.nextId + 1 }

/-- Transcribes Next (phase.go lines 78 to 88): derive a cancellable context
from the parent, allocate the phaseCtx around it, run init on the embedded
context, and return the new node. -/
def Next (s : PState) (t : Nat) (parent : Ctx) : Ctx × PState :=
  let pid := s.nextId
  let embedded := Ctx.withCancel pid parent
  (Ctx.phase pid parent, init (allocNode s) t pid embedded)

/-- Transcribes the phaseCtx.cancel method (phase.go lines 205 to 207),
which only invokes the cancel function of the node. -/
def phaseCtx.cancel (s : PState) (pid : Nat) : PState :=
  s.cancel pid

/-- Transcribes phaseCtx.close (phase.go lines 209 to 222): invoke the
cancel function, then, under the node mutex, when a parent is recorded call
children.Done() on the parent and clear the parent field. -/
def close (s : PState) (pid : Nat) : PState :=
  let s1 := s.cancel pid
  match s1.node pid with
  | none => s1
  | some d =>
      match d.parent with
      | none => s1
      | some par =>
          updNode pid (fun nd => { nd with parent := none })
            (updNode par (fun pd => { pd with children := pd.children - 1 }) s1)

/-- Transcribes the public Cancel (phase.go lines 94 to 101); the none
result models the panic taken when the context chain holds no phase node. -/
def Cancel (s : PState) (ctx : Ctx) : Option PState :=
  match ancestorPhaseCtx ctx with
  | none => none
  | some ph => some (close s (phasePid ph))

/-- Transcribes the public Close (phase.go lines 108 to 115); the none
result models the panic taken when the context chain holds no phase node. -/
def Close (s : PState) (ctx : Ctx) : Option PState :=
  match ancestorPhaseCtx ctx with
  | none => none
  | some ph => some (close s (phasePid ph))

/-- Transcribes the public Wait (phase.go lines 121 to 128) together with
phaseCtx.wait (lines 224 to 227): the none result models the panic taken
when no phase node is found; otherwise wait only blocks on the children
WaitGroup and performs no state change at all. -/
def Wait (s : PState) (ctx : Ctx) : Option PState :=
  match ancestorPhaseCtx ctx with
  | none => none
  | some _ => some s

/-- Condition under which the blocking call children.Wait() inside
phaseCtx.wait returns: the WaitGroup counter of the node is zero. -/
def waitReturns (s : PState) (pid : Nat) : Bool :=
  match s.node pid with
  | none => true
  | some d => d.children = 0

/-- The empty initial state. -/
def s0 : PState := ⟨[], [], 0⟩

/-- Iterated application of the internal close step to one node. -/
def closeN : Nat → PState → Nat → PState
  | 0, s, _ => s
  | n + 1, s, pid => closeN n (close s pid) pid

/-! Helper lemmas about the state primitives. -/

theorem nlookup_cons (q k : Nat) (v : NodeData) (tl : List (Nat × NodeData)) :
    nlookup q ((k, v) :: tl) = if q = k then some v else nlookup q tl := rfl

theorem updEntry_eq (pid : Nat) (f : NodeData → NodeData) (k : Nat) (v : NodeData) :
    updEntry pid f (k, v) = if k = pid then (k, f v) else (k, v) := rfl

theorem lookup_map_upd (pid q : Nat) (f : NodeData → NodeData)
    (l : List (Nat × NodeData)) :
    nlookup q (l.map (updEntry pid f)) =
      if q = pid then (nlookup q l).map f else nlookup q l := by
  induction l with
  | nil =>
      rcases eq_or_ne q pid with h | h
      · rw [if_pos h]
        rfl
      · rw [if_neg h]
        rfl
  | cons kv tl ih =>
      obtain ⟨k, v⟩ := kv
      rw [List.map_cons, updEntry_eq]
      rcases eq_or_ne k pid with hk | hk
      · rw [if_pos hk]
        rcases eq_or_ne q k with hq | hq
        · rw [nlookup_cons, if_pos hq, nlookup_cons, if_pos hq, if_pos (hq.trans hk)]
          rfl
        · rw [nlookup_cons, if_neg hq, ih, nlookup_cons, if_neg hq]
      · rw [if_neg hk]
        rcases eq_or_ne q k with hq | hq
        · rw [nlookup_cons, if_pos hq, nlookup_cons, if_pos hq,
            if_neg (hq ▸ hk : q ≠ pid)]
        · rw [nlookup_cons, if_neg hq, ih, nlookup_cons, if_neg hq]

theorem node_updNode (pid q : Nat) (f : NodeData → NodeData) (s : PState) :
    (updNode pid f s).node q = if q = pid then (s.node q).map f else s.node q := by
  unfold updNode PState.node
  exact lookup_map_upd pid q f s.nodes

theorem cancelled_updNode (pid : Nat) (f : NodeData → NodeData) (s : PState) :
    (updNode pid f s).cancelled = s.cancelled := rfl

theorem node_cancel (s : PState) (id q : Nat) : (s.cancel id).node q = s.node q := by
  unfold PState.cancel
  split <;> rfl

theorem cancel_contains (s : PState) (id : Nat) :
    (s.cancel id).cancelled.contains id = true := by
  unfold PState.cancel
  split
  · assumption
  · simp

theorem cancel_of_contains (s : PState) (id : Nat)
    (h : s.cancelled.contains id = true) : s.cancel id = s := by
  unfold PState.cancel
  rw [if_pos h]

theorem ctxDone_congr (s s' : PState) (t : Nat) (h : s.cancelled = s'.cancelled)
    (c : Ctx) : ctxDone s t c = ctxDone s' t c := by
  induction c <;> simp [ctxDone, h, *]

theorem ancestor_withCancel (id : Nat) (p : Ctx) :
    ancestorPhaseCtx (Ctx.withCancel id p) = ancestorPhaseCtx p := rfl

theorem ancestor_phase (pid : Nat) (p : Ctx) :
    ancestorPhaseCtx (Ctx.phase pid p) = some (Ctx.phase pid p) := by
  unfold ancestorPhaseCtx
  simp [ctxValue]

theorem Wait_phase (s : PState) (pid : Nat) (p : Ctx) :
    Wait s (Ctx.phase pid p) = some s := by
  unfold Wait
  rw [ancestor_phase]

/-- Helper exposing the branches of close once the cancel function ran. -/
theorem close_eq (s : PState) (pid : Nat) :
    close s pid =
      match (s.cancel pid).node pid with
      | none => s.cancel pid
      | some d =>
          match d.parent with
          | none => s.cancel pid
          | some par =>
              updNode pid (fun nd => { nd with parent := none })
                (updNode par (fun pd => { pd with children := pd.children - 1 })
                  (s.cancel pid)) := rfl

/-- The internal close step is idempotent as a state transformer. -/
theorem close_close (s : PState) (pid : Nat) : close (close s pid) pid = close s pid := by
  rcases hd : (s.cancel pid).node pid with _ | d
  · simp only [close_eq s pid, hd]
    simp only [close_eq (s.cancel pid) pid, cancel_of_contains _ _ (cancel_contains s pid), hd]
  · rcases hp : d.parent with _ | par
    · simp only [close_eq s pid, hd, hp]
      simp only [close_eq (s.cancel pid) pid, cancel_of_contains _ _ (cancel_contains s pid),
        hd, hp]
    · simp only [close_eq s pid, hd, hp]
      set s2 := updNode pid (fun nd => { nd with parent := none })
        (updNode par (fun pd => { pd with children := pd.children - 1 }) (s.cancel pid)) with hs2
      have hcc : s2.cancelled.contains pid = true := by
        rw [hs2, cancelled_updNode, cancelled_updNode]
        exact cancel_contains s pid
      have hnode : s2.node pid = some { (if pid = par then
          { d with children := d.children - 1 } else d) with parent := none } := by
        rw [hs2, node_updNode, if_pos rfl, node_updNode]
        rcases eq_or_ne pid par with h | h
        · rw [if_pos h, hd]
          simp [h]
        · rw [if_neg h, hd]
          simp [h]
      rw [close_eq s2 pid, cancel_of_contains _ _ hcc, hnode]

/-- Any positive number of close calls equals a single one. -/
theorem closeN_succ (n : Nat) (s : PState) (pid : Nat) :
    closeN (n + 1) s pid = close s pid := by
  induction n generalizing s with
  | zero => rfl
  | succ n ih =>
      have h : closeN (n + 1 + 1) s pid = closeN (n + 1) (close s pid) pid := rfl
      rw [h, ih, close_close]

/-- Registration behaviour of Next against a live ancestor node: the new
node is returned, the ancestor counter rises by one, and the new node
records the ancestor in its parent field. -/
theorem Next_registers (s : PState) (t pid : Nat) (parCtx : Ctx)
    (hfresh : pid ≠ s.nextId)
    (herr : ctxDone s t (Ctx.phase pid parCtx) = false) :
    (Next s t (Ctx.phase pid parCtx)).1 = Ctx.phase s.nextId (Ctx.phase pid parCtx) ∧
    ((Next s t (Ctx.phase pid parCtx)).2).node pid =
      (s.node pid).map (fun d => { d with children := d.children + 1 }) ∧
    ((Next s t (Ctx.phase pid parCtx)).2).node s.nextId =
      some { parent := some pid, children := 0 } := by
  have hs1 : ctxDone (allocNode s) t (Ctx.phase pid parCtx) = false :=
    (ctxDone_congr (allocNode s) s t rfl _).trans herr
  have hnext : Next s t (Ctx.phase pid parCtx) =
      (Ctx.phase s.nextId (Ctx.phase pid parCtx),
        updNode s.nextId (fun d => { d with parent := some pid })
          (updNode pid (fun d => { d with children := d.children + 1 })
            (allocNode s))) := by
    unfold Next init registerChild
    simp only [ancestor_withCancel, ancestor_phase, hs1, Bool.false_eq_true, if_false, phasePid]
  have halloc : ∀ q : Nat, q ≠ s.nextId → (allocNode s).node q = s.node q := by
    intro q hq
    unfold allocNode PState.node
    exact nlookup_cons q s.nextId ⟨none, 0⟩ s.nodes ▸ if_neg hq
  have hallocSelf : (allocNode s).node s.nextId = some ⟨none, 0⟩ := by
    unfold allocNode PState.node
    exact nlookup_cons s.nextId s.nextId ⟨none, 0⟩ s.nodes ▸ if_pos rfl
  refine ⟨by rw [hnext], ?_, ?_⟩
  · rw [hnext]
    simp only
    rw [node_updNode, if_neg hfresh, node_updNode, if_pos rfl, halloc pid hfresh]
  · rw [hnext]
    simp only
    rw [node_updNode, if_pos rfl, node_updNode, if_neg (Ne.symm hfresh), hallocSelf]
    rfl

/-! Concrete scenario states used by the claim theorems. -/

/-- The root phase node created by one Next on Background. -/
def rootCtx : Ctx := Ctx.phase 0 Ctx.background

/-- State after that first Next. -/
def sRoot : PState := (Next s0 0 Ctx.background).2

/-- A child node of the root. -/
def childCtx : Ctx := Ctx.phase 1 rootCtx

/-- State after Next on the root: the child is registered, the root counter
is one. -/
def sParentChild : PState := (Next sRoot 0 rootCtx).2

/-! Claim C1. -/

/-- Counterexample to claim C1: after the root node has begun (and even
returned from) WaitForChildren, a further Next whose parent context resolves
to that root does not fail and raises no error value; it registers the new
node with the root, whose children counter rises to one, and records the
root as the parent of the new node. -/
theorem C1_counterexample :
    Wait sRoot rootCtx = some sRoot ∧
    (((Next sRoot 0 rootCtx).2).node 0).map NodeData.children = some 1 ∧
    (((Next sRoot 0 rootCtx).2).node 1).map NodeData.parent = some (some 0) := by
  decide

/-- Claim C1 as amended: Next never fails and there is no registration
after drain error.  When the nearest ancestor phase node has begun
WaitForChildren (which leaves the state untouched) and its context is not
cancelled, the call still succeeds, returns a fresh node, registers it with
the ancestor, and records the ancestor as parent. -/
theorem C1_amended (s : PState) (t pid : Nat) (parCtx : Ctx)
    (hfresh : pid ≠ s.nextId)
    (herr : ctxDone s t (Ctx.phase pid parCtx) = false) :
    Wait s (Ctx.phase pid parCtx) = some s ∧
    (Next s t (Ctx.phase pid parCtx)).1 = Ctx.phase s.nextId (Ctx.phase pid parCtx) ∧
    ((Next s t (Ctx.phase pid parCtx)).2).node pid =
      (s.node pid).map (fun d => { d with children := d.children + 1 }) ∧
    ((Next s t (Ctx.phase pid parCtx)).2).node s.nextId =
      some { parent := some pid, children := 0 } := by
  obtain ⟨h1, h2, h3⟩ := Next_registers s t pid parCtx hfresh herr
  exact ⟨Wait_phase s pid parCtx, h1, h2, h3⟩

/-- Witness for C1 as amended, at the concrete root scenario. -/
theorem C1_amended_witness :
    Wait sRoot (Ctx.phase 0 Ctx.background) = some sRoot ∧
    (Next sRoot 0 (Ctx.phase 0 Ctx.background)).1 =
      Ctx.phase sRoot.nextId (Ctx.phase 0 Ctx.background) ∧
    ((Next sRoot 0 (Ctx.phase 0 Ctx.background)).2).node 0 =
      (sRoot.node 0).map (fun d => { d with children := d.children + 1 }) ∧
    ((Next sRoot 0 (Ctx.phase 0 Ctx.background)).2).node sRoot.nextId =
      some { parent := some 0, children := 0 } :=
  C1_amended sRoot 0 0 Ctx.background (by decide) (by decide)

/-! Claim C2. -/

/-- State with a grandchild registered under the child of the root. -/
def sGrand : PState := (Next sParentChild 0 childCtx).2

/-- State after the public Cancel on the root node. -/
def sCancelRoot : PState := (Cancel sGrand rootCtx).getD s0

/-- Counterexample to claim C2: cancel the root while its child has a
registered grandchild.  Native propagation makes the child context done at
once — only the root cancel function ran, the grandchild never closed, the
children counter of the child still counts it — so the child context is
marked done before every registered child of it has closed, and the
completion barrier did not defer it. -/
theorem C2_counterexample :
    Cancel sGrand rootCtx = some sCancelRoot ∧
    ctxDone sCancelRoot 0 childCtx = true ∧
    (sCancelRoot.node 1).map NodeData.children = some 1 ∧
    sCancelRoot.cancelled = [0] := by
  decide

/-- Claim C2 as amended (the ordering guarantee the code does give, stated
in section 5 of the spec): the Done and Err observations of a context depend
only on which cancel functions ran and on deadlines, never on the children
counters, so a node can be done while registered children are open; the
completion barrier instead governs wait, which returns exactly when the
counter of the node is zero. -/
theorem C2_amended (s s' : PState) (t : Nat) (c : Ctx) (pid : Nat) (d : NodeData)
    (h : s.cancelled = s'.cancelled) (hd : s.node pid = some d) :
    ctxDone s t c = ctxDone s' t c ∧ (waitReturns s pid = true ↔ d.children = 0) := by
  refine ⟨ctxDone_congr s s' t h c, ?_⟩
  unfold waitReturns
  rw [hd]
  simp

/-- Witness for C2 as amended: two states agreeing on cancellations but not
on node tables give identical Done observations. -/
theorem C2_amended_witness :
    ctxDone sRoot 0 rootCtx = ctxDone s0 0 rootCtx ∧
    (waitReturns sRoot 0 = true ↔ (⟨none, 0⟩ : NodeData).children = 0) :=
  C2_amended sRoot s0 0 rootCtx 0 ⟨none, 0⟩ (by decide) (by decide)

/-! Claim C3. -/

/-- State after the public Cancel on the registered child. -/
def sCancelChild : PState := (Cancel sParentChild childCtx).getD s0

/-- Counterexample to claim C3: with the child registered (the root counter
is one and the child records the root as parent), the public Cancel on the
child does not leave the parent state unchanged: it decrements the root
counter to zero and clears the parent field of the child, exactly as Close
would. -/
theorem C3_counterexample :
    (sParentChild.node 0).map NodeData.children = some 1 ∧
    (sParentChild.node 1).map NodeData.parent = some (some 0) ∧
    Cancel sParentChild childCtx = some sCancelChild ∧
    (sCancelChild.node 0).map NodeData.children = some 0 ∧
    (sCancelChild.node 1).map NodeData.parent = some none := by
  decide

/-- Claim C3 as amended: what leaves the parent counter and the parent
field untouched is cancelling the own context of the node — the
phaseCtx.cancel method, or upstream propagation — which changes no node
record; the public Cancel operation however runs the same internal close
step as Close and therefore notifies the parent. -/
theorem C3_amended (s : PState) (pid par : Nat) (ctx : Ctx) :
    (phaseCtx.cancel s pid).node par = s.node par ∧
    Cancel s ctx = Close s ctx :=
  ⟨node_cancel s pid par, rfl⟩

/-! Claim C4. -/

/-- Counterexample to claim C4: wait on the root performs no state change,
no waitStarted flag exists, and the children counter of the root then rises
from zero to one by a registration performed after WaitForChildren has begun
and returned — the count is not monotonically non increasing from that
point. -/
theorem C4_counterexample :
    Wait sRoot rootCtx = some sRoot ∧
    waitReturns sRoot 0 = true ∧
    (sRoot.node 0).map NodeData.children = some 0 ∧
    (((Next sRoot 0 rootCtx).2).node 0).map NodeData.children = some 1 := by
  decide

/-- Claim C4 as amended: WaitForChildren sets no flag and performs no state
change at all, and a new child can still register with a node after wait has
begun whenever the node context is not cancelled; only a cancelled context
blocks registration. -/
theorem C4_amended (s : PState) (t pid : Nat) (parCtx : Ctx) (d : NodeData)
    (hfresh : pid ≠ s.nextId)
    (herr : ctxDone s t (Ctx.phase pid parCtx) = false)
    (hd : s.node pid = some d) :
    Wait s (Ctx.phase pid parCtx) = some s ∧
    (((Next s t (Ctx.phase pid parCtx)).2).node pid).map NodeData.children =
      some (d.children + 1) := by
  obtain ⟨_, h2, _⟩ := Next_registers s t pid parCtx hfresh herr
  refine ⟨Wait_phase s pid parCtx, ?_⟩
  rw [h2, hd]
  rfl

/-- Witness for C4 as amended, at the concrete root scenario. -/
theorem C4_amended_witness :
    Wait sRoot (Ctx.phase 0 Ctx.background) = some sRoot ∧
    (((Next sRoot 0 (Ctx.phase 0 Ctx.background)).2).node 0).map NodeData.children =
      some ((0 : Int) + 1) :=
  C4_amended sRoot 0 0 Ctx.background ⟨none, 0⟩ (by decide) (by decide) (by decide)

/-! Claim C5. -/

/-- Claim C5: for a node whose parent is recorded and whose registration
was counted, any positive number of calls to the internal close step (the
step both public Cancel and Close run) decrements the parent counter
exactly once in total and clears the parent field exactly once, at the
notification; every later call is a no op, and the counter stays non
negative, so the Go WaitGroup does not panic and nothing blocks. -/
theorem C5_close_once (s : PState) (pid par n : Nat) (d e : NodeData)
    (hd : s.node pid = some d) (hp : d.parent = some par) (hne : pid ≠ par)
    (he : s.node par = some e) (hc : 1 ≤ e.children) :
    closeN (n + 1) s pid = close s pid ∧
    (close s pid).node par = some { e with children := e.children - 1 } ∧
    (close s pid).node pid = some { d with parent := none } ∧
    0 ≤ e.children - 1 := by
  have hd1 : (s.cancel pid).node pid = some d := (node_cancel s pid pid).trans hd
  have hclose : close s pid =
      updNode pid (fun nd => { nd with parent := none })
        (updNode par (fun pd => { pd with children := pd.children - 1 })
          (s.cancel pid)) := by
    simp only [close_eq s pid, hd1, hp]
  refine ⟨closeN_succ n s pid, ?_, ?_, by omega⟩
  · rw [hclose, node_updNode, if_neg (Ne.symm hne), node_updNode, if_pos rfl,
      node_cancel, he]
    rfl
  · rw [hclose, node_updNode, if_pos rfl, node_updNode, if_neg hne,
      node_cancel, hd]
    rfl

/-- Witness for C5 at the concrete parent and child scenario, with three
calls collapsing to one. -/
theorem C5_close_once_witness :
    closeN (2 + 1) sParentChild 1 = close sParentChild 1 ∧
    (close sParentChild 1).node 0 =
      some { (⟨none, 1⟩ : NodeData) with children := (⟨none, 1⟩ : NodeData).children - 1 } ∧
    (close sParentChild 1).node 1 =
      some { (⟨some 0, 0⟩ : NodeData) with parent := none } ∧
    (0 : Int) ≤ (⟨none, 1⟩ : NodeData).children - 1 :=
  C5_close_once sParentChild 1 0 2 ⟨some 0, 0⟩ ⟨none, 1⟩
    (by decide) (by decide) (by decide) (by decide) (by decide)

/-! Claim C6. -/

/-- Child created from the root after the root was closed. -/
def sBug : PState := (Next ((Cancel sRoot rootCtx).getD s0) 0 rootCtx).2

/-- The unregistered child node of that scenario. -/
def bugChildCtx : Ctx := Ctx.phase 1 rootCtx

/-- Claim C6 states an invariant the code breaks.  Create a root, close it
(so its context is cancelled), create a child from it: init skips the
registration because the parent Err is non nil, yet still records the
parent pointer.  Closing that child then finds the recorded parent and
calls children.Done() on it, driving the counter of the root from zero to
minus one — a decrement with no prior increment; the Go runtime panics on
the negative WaitGroup counter. -/
theorem C6_negative_counter :
    ctxDone ((Cancel sRoot rootCtx).getD s0) 0 rootCtx = true ∧
    (sBug.node 0).map NodeData.children = some 0 ∧
    (sBug.node 1).map NodeData.parent = some (some 0) ∧
    ((Close sBug bugChildCtx).getD s0).node 0 =
      some { parent := none, children := -1 } := by
  decide

/-! Claim C7. -/

/-- Claim C7: Cancel, Close and Wait all panic (the none result) when the
context chain holds no phase node, while Next raises nothing on such a
context and produces a root node with no parent and no children. -/
theorem C7_missing_ancestor (s : PState) (t : Nat) (ctx : Ctx)
    (h : ancestorPhaseCtx ctx = none) :
    Cancel s ctx = none ∧ Close s ctx = none ∧ Wait s ctx = none ∧
    (Next s t ctx).1 = Ctx.phase s.nextId ctx ∧
    ((Next s t ctx).2).node s.nextId = some { parent := none, children := 0 } := by
  have hnext : Next s t ctx = (Ctx.phase s.nextId ctx, allocNode s) := by
    unfold Next init
    simp only [ancestor_withCancel, h]
  refine ⟨?_, ?_, ?_, by rw [hnext], ?_⟩
  · unfold Cancel
    rw [h]
  · unfold Close
    rw [h]
  · unfold Wait
    rw [h]
  · rw [hnext]
    unfold allocNode PState.node
    exact nlookup_cons s.nextId s.nextId ⟨none, 0⟩ s.nodes ▸ if_pos rfl

/-- Witness for C7 on the Background context. -/
theorem C7_missing_ancestor_witness :
    Cancel s0 Ctx.background = none ∧ Close s0 Ctx.background = none ∧
    Wait s0 Ctx.background = none ∧
    (Next s0 0 Ctx.background).1 = Ctx.phase s0.nextId Ctx.background ∧
    ((Next s0 0 Ctx.background).2).node s0.nextId =
      some { parent := none, children := 0 } :=
  C7_missing_ancestor s0 0 Ctx.background (by decide)

/-! Claim C8. -/

/-- A context whose reported deadline has passed observes Done, whatever
the cancellation state: the deadline context on the chain fires and the
cancellation propagates down natively. -/
theorem ctxDone_of_deadline (s : PState) (t : Nat) (c : Ctx) :
    ∀ dl, ctxDeadline c = some dl → dl ≤ t → ctxDone s t c = true := by
  induction c with
  | background =>
      intro dl h _
      exact absurd h (by simp [ctxDeadline])
  | withCancel id p ih =>
      intro dl h ht
      simp only [ctxDeadline] at h
      simp [ctxDone, ih dl h ht]
  | withDeadline id d p ih =>
      intro dl h ht
      simp only [ctxDeadline] at h
      rcases hp : ctxDeadline p with _ | e
      · rw [hp] at h
        simp only [Option.some.injEq] at h
        subst h
        simp [ctxDone, ht]
      · rw [hp] at h
        simp only [Option.some.injEq] at h
        rcases le_total d e with hde | hde
        · have hdt : d ≤ t := by omega
          simp [ctxDone, hdt]
        · have het : e ≤ t := by omega
          simp [ctxDone, ih e hp het]
  | withValue k v p ih =>
      intro dl h ht
      simp only [ctxDeadline] at h
      simp [ctxDone, ih dl h ht]
  | phase pid p ih =>
      intro dl h ht
      simp only [ctxDeadline] at h
      simp [ctxDone, ih dl h ht]

/-- Claim C8: a node created by Next from a parent context carrying a
deadline reports the same deadline (so a time at or before it), and its
Done observation is true at every time at or after the deadline, in every
cancellation state, with no explicit cancellation required. -/
theorem C8_deadline (s : PState) (t dl : Nat) (parent : Ctx)
    (h : ctxDeadline parent = some dl) :
    ctxDeadline (Next s t parent).1 = some dl ∧
    ∀ s' t', dl ≤ t' → ctxDone s' t' (Next s t parent).1 = true := by
  have h1 : (Next s t parent).1 = Ctx.phase s.nextId parent := rfl
  rw [h1]
  refine ⟨by simp only [ctxDeadline, h], ?_⟩
  intro s' t' ht
  simp [ctxDone, ctxDone_of_deadline s' t' parent dl h ht]

/-- Witness for C8 with a parent holding deadline seven, observed at time
nine. -/
theorem C8_deadline_witness :
    ctxDeadline (Next s0 0 (Ctx.withDeadline 5 7 Ctx.background)).1 = some 7 ∧
    ctxDone s0 9 (Next s0 0 (Ctx.withDeadline 5 7 Ctx.background)).1 = true :=
  ⟨(C8_deadline s0 0 7 (Ctx.withDeadline 5 7 Ctx.background) (by decide)).1,
    (C8_deadline s0 0 7 (Ctx.withDeadline 5 7 Ctx.background) (by decide)).2 s0 9 (by decide)⟩

/-! Claim C9. -/

/-- One phase unaware context layer. -/
inductive Layer where
  | cancelLayer (id : Nat) : Layer
  | deadlineLayer (id d : Nat) : Layer
  | valueLayer (k v : Nat) : Layer
  deriving DecidableEq, Repr

/-- Interposes a stack of phase unaware layers above a base context. -/
def wrap : List Layer → Ctx → Ctx
  | [], c => c
  | .cancelLayer id :: ls, c => Ctx.withCancel id (wrap ls c)
  | .deadlineLayer id d :: ls, c => Ctx.withDeadline id d (wrap ls c)
  | .valueLayer k v :: ls, c => Ctx.withValue k v (wrap ls c)

/-- Claim C9: value lookup on a phase node hands every user key to the
upstream parent chain unchanged; the reserved marker key returns the node
itself; and the ancestor locator finds the nearest phase node through any
stack of phase unaware intermediary contexts. -/
theorem C9_value_passthrough (pid : Nat) (parent : Ctx) (k : Nat) (ls : List Layer) :
    ctxValue (Ctx.phase pid parent) (Key.user k) = ctxValue parent (Key.user k) ∧
    ctxValue (Ctx.phase pid parent) Key.marker = Val.phaseRef (Ctx.phase pid parent) ∧
    ancestorPhaseCtx (wrap ls (Ctx.phase pid parent)) = some (Ctx.phase pid parent) := by
  refine ⟨by simp [ctxValue], by simp [ctxValue], ?_⟩
  have hval : ∀ ls : List Layer, ∀ c : Ctx,
      ctxValue (wrap ls c) Key.marker = ctxValue c Key.marker := by
    intro ls
    induction ls with
    | nil => intro c; rfl
    | cons l tl ih =>
        intro c
        cases l <;> simp [wrap, ctxValue, ih c]
  unfold ancestorPhaseCtx
  rw [hval ls (Ctx.phase pid parent)]
  simp [ctxValue]

/-! Claim C10. -/

/-- Claim C10: the public Cancel and Close are observationally the same
operation.  Both equal the one step that resolves the nearest phase node
and runs the internal close; they succeed exactly when a phase node is
found, with no condition on — and no waiting for — the children of the
node. -/
theorem C10_cancel_eq_close (s : PState) (ctx : Ctx) :
    Cancel s ctx = Close s ctx ∧
    Cancel s ctx = (ancestorPhaseCtx ctx).map (fun ph => close s (phasePid ph)) ∧
    (Cancel s ctx).isSome = (ancestorPhaseCtx ctx).isSome := by
  refine ⟨rfl, ?_, ?_⟩
  · unfold Cancel
    cases ancestorPhaseCtx ctx <;> rfl
  · unfold Cancel
    cases ancestorPhaseCtx ctx <;> rfl

end Phase
